import Mathlib

/-!
Verification of the whatsthatthing server: a shallow embedding of the
region-scoped fan-out broker (`src/websocket_server.ts`) and the MTA
transit pipeline (`src/data-sources/mta.ts`, `mta-interpolation.ts`,
`mta-gtfs-static.ts`), with theorems settling the spec's testable
properties against it.
-/

namespace WTT

/-! ## CSV parsing (`src/data-sources/mta-gtfs-static.ts`, `parseCSVLine`) -/

/-- One step of `parseCSVLine`'s character loop: a `"` toggles `inQuotes`,
a `,` outside quotes closes the current field, any other character (and a
`,` inside quotes) is appended to the current field.  The accumulator
`current` grows at the end, as `current += char` does. -/
def parseCSVLineAux : List Char → Bool → List Char → List String
  | [], _, current => [String.mk current]
  | c :: rest, inQuotes, current =>
    if c = '"' then
      parseCSVLineAux rest (!inQuotes) current
    else if c = ',' && !inQuotes then
      String.mk current :: parseCSVLineAux rest inQuotes []
    else
      parseCSVLineAux rest inQuotes (current ++ [c])

/-- Function `parseCSVLine` from `mta-gtfs-static.ts`: split a line at commas,
with quote characters toggling an in-quotes state in which commas are
ordinary content. -/
def parseCSVLine (line : String) : List String :=
  parseCSVLineAux line.data false []

/-- A character list is "plain" when it contains neither a quote nor a comma. -/
def PlainChars (l : List Char) : Prop :=
  ∀ c ∈ l, c ≠ '"' ∧ c ≠ ','

instance (l : List Char) : Decidable (PlainChars l) :=
  List.decidableBAll _ l

theorem parseCSVLineAux_plain (l : List Char) (hl : PlainChars l) :
    ∀ (rest : List Char) (q : Bool) (cur : List Char),
      parseCSVLineAux (l ++ rest) q cur = parseCSVLineAux rest q (cur ++ l) := by
  induction l with
  | nil => intro rest q cur; simp
  | cons c t ih =>
    intro rest q cur
    have hc := hl c (List.mem_cons_self c t)
    have ht : PlainChars t := fun x hx => hl x (List.mem_cons_of_mem c hx)
    simp only [List.cons_append, parseCSVLineAux, if_neg hc.1]
    rw [if_neg (by simp [hc.2])]
    simp only [List.append_eq]
    rw [ih ht rest q (cur ++ [c])]
    simp

example : parseCSVLine "\"A,B\",C" = ["A,B", "C"] := by decide

theorem parseCSVLineAux_quote (l : List Char) (q : Bool) (cur : List Char) :
    parseCSVLineAux ('"' :: l) q cur = parseCSVLineAux l (!q) cur := by
  simp [parseCSVLineAux]

theorem parseCSVLineAux_comma_inQuotes (l : List Char) (cur : List Char) :
    parseCSVLineAux (',' :: l) true cur = parseCSVLineAux l true (cur ++ [',']) := by
  simp [parseCSVLineAux]

theorem parseCSVLineAux_comma_outQuotes (l : List Char) (cur : List Char) :
    parseCSVLineAux (',' :: l) false cur = String.mk cur :: parseCSVLineAux l false [] := by
  simp [parseCSVLineAux]

/-- C9: a delimiter inside a quoted field is ordinary content: for any
quote-free, comma-free `a`, `b`, `c`, the row `"a,b",c` parses to exactly
the two fields `[a ++ "," ++ b, c]` — the quote toggles the in-quotes
state, and the comma between `a` and `b` does not split the field. -/
theorem C9_parseCSVLine_quoted_comma (a b c : String)
    (ha : PlainChars a.data) (hb : PlainChars b.data) (hc : PlainChars c.data) :
    parseCSVLine ("\"" ++ a ++ "," ++ b ++ "\"" ++ "," ++ c) = [a ++ "," ++ b, c] := by
  have hdata : ("\"" ++ a ++ "," ++ b ++ "\"" ++ "," ++ c).data
      = '"' :: (a.data ++ (',' :: (b.data ++ ('"' :: (',' :: c.data))))) := by
    show (['"'] ++ a.data ++ [','] ++ b.data ++ ['"'] ++ [','] ++ c.data : List Char) = _
    simp
  show parseCSVLineAux _ false [] = _
  rw [hdata, parseCSVLineAux_quote, parseCSVLineAux_plain a.data ha, Bool.not_false,
    parseCSVLineAux_comma_inQuotes, parseCSVLineAux_plain b.data hb,
    parseCSVLineAux_quote, Bool.not_true, parseCSVLineAux_comma_outQuotes]
  have hce : parseCSVLineAux c.data false [] = [String.mk c.data] := by
    have h := parseCSVLineAux_plain c.data hc [] false []
    simpa [parseCSVLineAux] using h
  rw [hce]
  have h1 : a ++ "," ++ b = String.mk ((([] : List Char) ++ a.data ++ [',']) ++ b.data) := by
    apply String.ext
    simp
  have h2 : c = String.mk c.data := by
    apply String.ext
    simp
  rw [h1, h2]

/-- Witness for C9 at the spec's concrete row: parsing the line
produces exactly the two fields of the spec's example. -/
theorem C9_witness :
    PlainChars "A".data ∧ PlainChars "B".data ∧ PlainChars "C".data ∧
      parseCSVLine "\"A,B\",C" = ["A,B", "C"] := by
  refine ⟨by decide, by decide, by decide, ?_⟩
  have h := C9_parseCSVLine_quoted_comma "A" "B" "C" (by decide) (by decide) (by decide)
  simpa using h

/-! ## Bounding boxes and their canonical key
(`src/websocket_server.ts`, `getKeyForBounds`) -/

/-- The `Bounds` type of `websocket_server.ts`.  Coordinates are modelled
as rationals. -/
structure Bounds where
  maxLat : ℚ
  minLat : ℚ
  maxLng : ℚ
  minLng : ℚ
deriving DecidableEq

/-- Decimal digit characters of a natural number, most significant first. -/
def natChars (n : ℕ) : List Char :=
  if n < 10 then [Nat.digitChar n]
  else natChars (n / 10) ++ [Nat.digitChar (n % 10)]
decreasing_by exact Nat.div_lt_self (by omega) (by omega)

/-- The six fraction digits of `m` (taken mod `10^6`), zero padded. -/
def fracChars6 (m : ℕ) : List Char :=
  [Nat.digitChar (m / 100000 % 10), Nat.digitChar (m / 10000 % 10),
   Nat.digitChar (m / 1000 % 10), Nat.digitChar (m / 100 % 10),
   Nat.digitChar (m / 10 % 10), Nat.digitChar (m % 10)]

/-- Render the non-negative fixed-point value `n / 10^6` with exactly six
fraction digits. -/
def toFixed6Nat (n : ℕ) : String :=
  String.mk (natChars (n / 1000000)) ++ "." ++ String.mk (fracChars6 (n % 1000000))

/-- JavaScript `x.toFixed(6)`: for a negative number, a leading minus
sign followed by the rendering of the magnitude; the magnitude is scaled
by `10^6` and rounded to the nearest integer, ties away from zero. -/
def toFixed6 (q : ℚ) : String :=
  if q < 0 then "-" ++ toFixed6Nat ((-q) * 1000000 + 1/2).floor.toNat
  else toFixed6Nat (q * 1000000 + 1/2).floor.toNat

/-- Function `getKeyForBounds` from `websocket_server.ts`: the four fields rendered
to six decimal places, joined by `-`. -/
def getKeyForBounds (b : Bounds) : String :=
  toFixed6 b.maxLat ++ "-" ++ toFixed6 b.minLat ++ "-" ++ toFixed6 b.maxLng
    ++ "-" ++ toFixed6 b.minLng

theorem digitChar_isDigit {d : ℕ} (h : d < 10) : (Nat.digitChar d).isDigit := by
  interval_cases d <;> decide

theorem natChars_isDigit (n : ℕ) : ∀ c ∈ natChars n, c.isDigit := by
  induction n using Nat.strong_induction_on with
  | _ n ih =>
    rw [natChars]
    split
    · intro c hc
      simp only [List.mem_singleton] at hc
      subst hc
      exact digitChar_isDigit (by omega)
    · intro c hc
      rcases List.mem_append.mp hc with h1 | h2
      · exact ih (n / 10) (Nat.div_lt_self (by omega) (by omega)) c h1
      · simp only [List.mem_singleton] at h2
        subst h2
        exact digitChar_isDigit (Nat.mod_lt _ (by omega))

/-- A char list in "fixed-point format": everything before the single
tracked dot is dot-free, and exactly six characters follow it. -/
def FixedData (l : List Char) : Prop :=
  ∃ u v, l = u ++ '.' :: v ∧ '.' ∉ u ∧ v.length = 6

theorem toFixed6_fixedData (q : ℚ) : FixedData (toFixed6 q).data := by
  have hdot : ∀ n : ℕ, '.' ∉ natChars n := by
    intro n hmem
    have := natChars_isDigit n '.' hmem
    simp [Char.isDigit] at this
  unfold toFixed6 toFixed6Nat
  split
  · refine ⟨'-' :: natChars (((-q) * 1000000 + 1/2).floor.toNat / 1000000),
      fracChars6 (((-q) * 1000000 + 1/2).floor.toNat % 1000000), ?_, ?_, rfl⟩
    · simp [String.data_append, String.mk]
    · intro hmem
      rcases List.mem_cons.mp hmem with h | h
      · exact absurd h (by decide)
      · exact hdot _ h
  · exact ⟨natChars ((q * 1000000 + 1/2).floor.toNat / 1000000),
      fracChars6 ((q * 1000000 + 1/2).floor.toNat % 1000000),
      by simp [String.data_append, String.mk], hdot _, rfl⟩

/-- If two concatenations around the first occurrence of `c` agree, the
parts agree. -/
theorem eq_of_append_cons (c : Char) (u₁ : List Char) :
    ∀ (u₂ r₁ r₂ : List Char), c ∉ u₁ → c ∉ u₂ →
      u₁ ++ c :: r₁ = u₂ ++ c :: r₂ → u₁ = u₂ ∧ r₁ = r₂ := by
  induction u₁ with
  | nil =>
    intro u₂ r₁ r₂ h1 h2 h
    cases u₂ with
    | nil => simpa using h
    | cons y t =>
      simp only [List.nil_append, List.cons_append, List.cons.injEq] at h
      exact absurd (h.1 ▸ List.mem_cons_self y t) h2
  | cons x t ih =>
    intro u₂ r₁ r₂ h1 h2 h
    cases u₂ with
    | nil =>
      simp only [List.cons_append, List.nil_append, List.cons.injEq] at h
      exact absurd (h.1.symm ▸ List.mem_cons_self x t) h1
    | cons y t₂ =>
      simp only [List.cons_append, List.cons.injEq] at h
      obtain ⟨rfl, h'⟩ := h
      have h1' : c ∉ t := fun hm => h1 (List.mem_cons_of_mem _ hm)
      have h2' : c ∉ t₂ := fun hm => h2 (List.mem_cons_of_mem _ hm)
      obtain ⟨rfl, rfl⟩ := ih t₂ r₁ r₂ h1' h2' h'
      exact ⟨rfl, rfl⟩

/-- A `-`-separated join whose head is in fixed-point format decomposes
uniquely. -/
theorem fixedData_sep_inj (a₁ a₂ t₁ t₂ : List Char)
    (h₁ : FixedData a₁) (h₂ : FixedData a₂)
    (h : a₁ ++ '-' :: t₁ = a₂ ++ '-' :: t₂) : a₁ = a₂ ∧ t₁ = t₂ := by
  obtain ⟨u₁, v₁, rfl, hu₁, hv₁⟩ := h₁
  obtain ⟨u₂, v₂, rfl, hu₂, hv₂⟩ := h₂
  rw [List.append_assoc, List.append_assoc] at h
  simp only [List.cons_append] at h
  obtain ⟨rfl, h'⟩ := eq_of_append_cons '.' u₁ u₂ _ _ hu₁ hu₂ h
  obtain ⟨rfl, h''⟩ := List.append_inj h' (hv₁.trans hv₂.symm)
  simp only [List.cons.injEq, true_and] at h''
  exact ⟨rfl, h''⟩

theorem getKeyForBounds_data (b : Bounds) :
    (getKeyForBounds b).data =
      (toFixed6 b.maxLat).data ++ '-' :: ((toFixed6 b.minLat).data
        ++ '-' :: ((toFixed6 b.maxLng).data ++ '-' :: (toFixed6 b.minLng).data)) := by
  simp [getKeyForBounds, String.data_append]

/-- C8: the key of a bounding box is exactly determined by the
six-decimal renderings of its four fields — two boxes whose fields agree
when rendered to six decimal places (in particular, the same box twice)
get identical keys, and two boxes some field of which differs beyond that
precision get distinct keys. -/
theorem C8_getKeyForBounds_canonical (b b' : Bounds) :
    getKeyForBounds b = getKeyForBounds b' ↔
      (toFixed6 b.maxLat = toFixed6 b'.maxLat ∧
       toFixed6 b.minLat = toFixed6 b'.minLat ∧
       toFixed6 b.maxLng = toFixed6 b'.maxLng ∧
       toFixed6 b.minLng = toFixed6 b'.minLng) := by
  constructor
  · intro h
    have hd : (getKeyForBounds b).data = (getKeyForBounds b').data := by rw [h]
    rw [getKeyForBounds_data, getKeyForBounds_data] at hd
    obtain ⟨e1, hd⟩ := fixedData_sep_inj _ _ _ _
      (toFixed6_fixedData _) (toFixed6_fixedData _) hd
    obtain ⟨e2, hd⟩ := fixedData_sep_inj _ _ _ _
      (toFixed6_fixedData _) (toFixed6_fixedData _) hd
    obtain ⟨e3, e4⟩ := fixedData_sep_inj _ _ _ _
      (toFixed6_fixedData _) (toFixed6_fixedData _) hd
    exact ⟨String.ext e1, String.ext e2, String.ext e3, String.ext e4⟩
  · rintro ⟨h1, h2, h3, h4⟩
    simp [getKeyForBounds, h1, h2, h3, h4]

/-! ## Static GTFS data model (`src/data-sources/mta-gtfs-static.ts`) -/

structure Stop where
  stopId : String
  stopName : String
  lat : ℚ
  lng : ℚ
deriving DecidableEq, Repr

structure ShapePoint where
  shapeId : String
  lat : ℚ
  lng : ℚ
  sequence : ℤ
deriving DecidableEq, Repr

structure StopTime where
  tripId : String
  arrivalTime : String
  departureTime : String
  stopId : String
  stopSequence : ℤ
deriving DecidableEq, Repr

structure Trip where
  tripId : String
  routeId : String
  serviceId : String
  tripHeadsign : String
  directionId : ℤ
  shapeId : String
deriving DecidableEq, Repr

structure Route where
  routeId : String
  agencyId : String
  routeShortName : String
  routeLongName : String
  routeDesc : String
  routeType : ℤ
  routeUrl : String
  routeColor : String
  routeTextColor : String
  routeSortOrder : ℤ
deriving DecidableEq, Repr

/-- The five tables of `StaticGTFSData`.  The JS `Map`s are modelled as
association lists queried with `List.lookup`. -/
structure StaticGTFSData where
  stops : List (String × Stop)
  shapes : List (String × List ShapePoint)
  stopTimes : List (String × List StopTime)
  trips : List (String × Trip)
  routes : List (String × Route)
deriving Repr

/-! ## Position interpolation (`src/data-sources/mta-interpolation.ts`)

The haversine `distance` helper computes with `Math.sin`/`Math.cos`/
`Math.atan2`, which have no exact shallow embedding; every definition
below therefore takes the distance function `dist` as an explicit
parameter, and every theorem quantifies over it.  A JS crash (reading
`.lat` of `undefined` on an out-of-range or empty-shape index) is
modelled as `none`. -/

structure InterpolatedPosition where
  lat : ℚ
  lng : ℚ
  progress : ℚ
deriving DecidableEq, Repr

/-- Indexing `shape[i]`, `none` when out of range (where JS yields `undefined`
and a subsequent member access throws). -/
def shapeGet (shape : List ShapePoint) (i : ℕ) : Option ShapePoint :=
  shape.get? i

/-- The scan loop of `findClosestPointOnShape`, starting from index `i`
with current best `(point, index, distance)`; a strictly smaller
distance replaces the best, so the first minimum wins. -/
def closestAux (dist : ℚ → ℚ → ℚ → ℚ → ℚ) (lat lng : ℚ) :
    List ShapePoint → ℕ → (ShapePoint × ℕ × ℚ) → ShapePoint × ℕ × ℚ
  | [], _, best => best
  | p :: rest, i, best =>
    let d := dist lat lng p.lat p.lng
    if d < best.2.2 then closestAux dist lat lng rest (i + 1) (p, i, d)
    else closestAux dist lat lng rest (i + 1) best

/-- Function `findClosestPointOnShape`: linear scan for the minimum-distance
vertex.  On an empty shape the source reads `shape[0].lat` and throws:
modelled as `none`. -/
def findClosestPointOnShape (dist : ℚ → ℚ → ℚ → ℚ → ℚ)
    (shape : List ShapePoint) (lat lng : ℚ) : Option (ShapePoint × ℕ × ℚ) :=
  match shape with
  | [] => none
  | p0 :: rest => some (closestAux dist lat lng rest 1 (p0, 0, dist lat lng p0.lat p0.lng))

/-- The cumulative-distance loop of `interpolateAlongShape`: starting
from vertex `i` with running total `total`, accumulate `n` further
segment lengths, failing if a vertex access is out of range. -/
def segDistancesFrom (dist : ℚ → ℚ → ℚ → ℚ → ℚ) (shape : List ShapePoint) :
    ℕ → ℕ → ℚ → Option (List ℚ)
  | _, 0, _ => some []
  | i, n + 1, total =>
    (shapeGet shape i).bind fun p =>
    (shapeGet shape (i + 1)).bind fun p' =>
    let total' := total + dist p.lat p.lng p'.lat p'.lng
    (segDistancesFrom dist shape (i + 1) n total').map fun rest => total' :: rest

/-- The `segmentDistances` list of `interpolateAlongShape`: `[0]` followed by the
running totals for each segment from `startIndex` to `endIndex`. -/
def segDistances (dist : ℚ → ℚ → ℚ → ℚ → ℚ) (shape : List ShapePoint)
    (startIndex endIndex : ℕ) : Option (List ℚ) :=
  (segDistancesFrom dist shape startIndex (endIndex - startIndex) 0).map
    fun l => 0 :: l

/-- The segment-search loop: the first index `i` below
`segmentDistances.length - 1` whose interval contains the target
distance, `0` when none matches (the loop variable's initial value). -/
def findSegmentIndex (sds : List ℚ) (target : ℚ) : ℕ :=
  match (List.range (sds.length - 1)).find?
      (fun i => decide (sds.getD i 0 ≤ target ∧ target ≤ sds.getD (i + 1) 0)) with
  | some i => i
  | none => 0

/-- Function `interpolateAlongShape`: walk the polyline from `startIndex` to
`endIndex` and linearly interpolate within the segment containing
`progress × totalLength`.  (All list reads reachable from
`interpolateTrainPosition` are in range; the `getD` defaults are never
hit there.) -/
def interpolateAlongShape (dist : ℚ → ℚ → ℚ → ℚ → ℚ) (shape : List ShapePoint)
    (startIndex endIndex : ℕ) (progress : ℚ) : Option (ℚ × ℚ) :=
  if startIndex = endIndex then
    (shapeGet shape startIndex).map fun p => (p.lat, p.lng)
  else
    (segDistances dist shape startIndex endIndex).bind fun sds =>
    let totalDistance := sds.getLastD 0
    if totalDistance = 0 then
      (shapeGet shape startIndex).map fun p => (p.lat, p.lng)
    else
      let targetDistance := progress * totalDistance
      let segmentIndex := findSegmentIndex sds targetDistance
      let segmentStart := sds.getD segmentIndex 0
      let segmentEnd := sds.getD (segmentIndex + 1) 0
      let segmentProgress :=
        if segmentStart < segmentEnd then
          (targetDistance - segmentStart) / (segmentEnd - segmentStart)
        else 0
      (shapeGet shape (startIndex + segmentIndex)).bind fun p1 =>
      (shapeGet shape (startIndex + segmentIndex + 1)).map fun p2 =>
      (p1.lat + (p2.lat - p1.lat) * segmentProgress,
       p1.lng + (p2.lng - p1.lng) * segmentProgress)

/-- The `shapeId && staticData.shapes.has(shapeId)` guard: a missing or
empty (falsy) shape id, or one with no entry, selects the straight-line
fallback. -/
def lookupShape (sd : StaticGTFSData) (shapeId : Option String) :
    Option (List ShapePoint) :=
  match shapeId with
  | none => none
  | some sid => if sid = "" then none else sd.shapes.lookup sid

/-- Function `interpolateTrainPosition` from `mta-interpolation.ts`: clamp the
current time into the window, return the next stop at progress 1 on a
degenerate window, otherwise interpolate along the resolved shape or on
the straight line between the stops. -/
def interpolateTrainPosition (dist : ℚ → ℚ → ℚ → ℚ → ℚ) (lastStop nextStop : Stop)
    (lastStopTime nextStopTime currentTime : ℚ) (staticData : StaticGTFSData)
    (shapeId : Option String) : Option InterpolatedPosition :=
  let clampedTime := max lastStopTime (min currentTime nextStopTime)
  let timeRange := nextStopTime - lastStopTime
  if timeRange ≤ 0 then
    some { lat := nextStop.lat, lng := nextStop.lng, progress := 1 }
  else
    let progress := (clampedTime - lastStopTime) / timeRange
    match lookupShape staticData shapeId with
    | some shape =>
      (findClosestPointOnShape dist shape lastStop.lat lastStop.lng).bind fun lastOn =>
      (findClosestPointOnShape dist shape nextStop.lat nextStop.lng).bind fun nextOn =>
      let startIndex := min lastOn.2.1 nextOn.2.1
      let endIndex := max lastOn.2.1 nextOn.2.1
      (interpolateAlongShape dist shape startIndex endIndex progress).map fun pos =>
        { lat := pos.1, lng := pos.2, progress := progress }
    | none =>
      some { lat := lastStop.lat + (nextStop.lat - lastStop.lat) * progress,
             lng := lastStop.lng + (nextStop.lng - lastStop.lng) * progress,
             progress := progress }

/-- C7: whenever `nextStopTime ≤ lastStopTime`, `interpolateTrainPosition`
returns the next stop's coordinates at progress 1, regardless of the
current time, the schedule data, and the optional shape id. -/
theorem C7_degenerate_schedule (dist : ℚ → ℚ → ℚ → ℚ → ℚ) (A B : Stop)
    (lastT nextT t : ℚ) (sd : StaticGTFSData) (sid : Option String)
    (h : nextT ≤ lastT) :
    interpolateTrainPosition dist A B lastT nextT t sd sid
      = some { lat := B.lat, lng := B.lng, progress := 1 } := by
  unfold interpolateTrainPosition
  rw [if_pos (by linarith)]

/-- Witness for C7 at a concrete degenerate schedule. -/
theorem C7_witness :
    (100 : ℚ) ≤ 100 ∧
      interpolateTrainPosition (fun _ _ _ _ => 0) ⟨"a", "A", 1, 2⟩ ⟨"b", "B", 3, 4⟩
        100 100 777 ⟨[], [], [], [], []⟩ (some "s")
      = some { lat := 3, lng := 4, progress := 1 } :=
  ⟨le_refl _, C7_degenerate_schedule (fun _ _ _ _ => 0) ⟨"a", "A", 1, 2⟩ ⟨"b", "B", 3, 4⟩
    100 100 777 ⟨[], [], [], [], []⟩ (some "s") (le_refl _)⟩

/-- C6: with stops at times 100 and 200 and no shape supplied, the
interpolation is the clamped linear one: any time at or before 100 gives
progress 0 at stop A, any time at or after 200 gives progress 1 at stop
B, and time 150 gives progress 1/2 at the midpoint. -/
theorem C6_interpolation_boundary (dist : ℚ → ℚ → ℚ → ℚ → ℚ) (A B : Stop)
    (sd : StaticGTFSData) :
    (∀ t : ℚ, t ≤ 100 → interpolateTrainPosition dist A B 100 200 t sd none
        = some { lat := A.lat, lng := A.lng, progress := 0 }) ∧
    (∀ t : ℚ, 200 ≤ t → interpolateTrainPosition dist A B 100 200 t sd none
        = some { lat := B.lat, lng := B.lng, progress := 1 }) ∧
    interpolateTrainPosition dist A B 100 200 150 sd none
        = some { lat := (A.lat + B.lat) / 2, lng := (A.lng + B.lng) / 2,
                 progress := 1 / 2 } := by
  refine ⟨?_, ?_, ?_⟩
  · intro t ht
    have hmin : min t (200 : ℚ) = t := min_eq_left (by linarith)
    have hmax : max (100 : ℚ) t = 100 := max_eq_left ht
    simp only [interpolateTrainPosition, lookupShape, hmin, hmax]
    rw [if_neg (by norm_num)]
    norm_num
  · intro t ht
    have hmin : min t (200 : ℚ) = 200 := min_eq_right ht
    have hmax : max (100 : ℚ) (200 : ℚ) = 200 := by norm_num
    simp only [interpolateTrainPosition, lookupShape, hmin, hmax]
    rw [if_neg (by norm_num)]
    norm_num
  · have hmin : min (150 : ℚ) 200 = 150 := by norm_num
    have hmax : max (100 : ℚ) 150 = 150 := by norm_num
    simp only [interpolateTrainPosition, lookupShape, hmin, hmax]
    rw [if_neg (by norm_num)]
    norm_num
    constructor <;> ring

/-- Witness for C6 at the spec's concrete clamped times 50 and 9999. -/
theorem C6_witness :
    (50 : ℚ) ≤ 100 ∧ (200 : ℚ) ≤ 9999 ∧
    interpolateTrainPosition (fun _ _ _ _ => 0) ⟨"a", "A", 1, 2⟩ ⟨"b", "B", 3, 4⟩
        100 200 50 ⟨[], [], [], [], []⟩ none
      = some { lat := 1, lng := 2, progress := 0 } ∧
    interpolateTrainPosition (fun _ _ _ _ => 0) ⟨"a", "A", 1, 2⟩ ⟨"b", "B", 3, 4⟩
        100 200 9999 ⟨[], [], [], [], []⟩ none
      = some { lat := 3, lng := 4, progress := 1 } := by
  refine ⟨by norm_num, by norm_num, ?_, ?_⟩
  · exact (C6_interpolation_boundary (fun _ _ _ _ => 0) ⟨"a", "A", 1, 2⟩
      ⟨"b", "B", 3, 4⟩ ⟨[], [], [], [], []⟩).1 50 (by norm_num)
  · exact (C6_interpolation_boundary (fun _ _ _ _ => 0) ⟨"a", "A", 1, 2⟩
      ⟨"b", "B", 3, 4⟩ ⟨[], [], [], [], []⟩).2.1 9999 (by norm_num)

theorem closestAux_index_lt (dist : ℚ → ℚ → ℚ → ℚ → ℚ) (lat lng : ℚ)
    (l : List ShapePoint) :
    ∀ (i : ℕ) (best : ShapePoint × ℕ × ℚ) (n : ℕ), best.2.1 < n →
      i + l.length ≤ n → (closestAux dist lat lng l i best).2.1 < n := by
  induction l with
  | nil =>
    intro i best n hb _
    simpa [closestAux] using hb
  | cons p rest ih =>
    intro i best n hb hlen
    simp only [List.length_cons] at hlen
    simp only [closestAux]
    split
    · exact ih (i + 1) (p, i, dist lat lng p.lat p.lng) n (by simp; omega) (by omega)
    · exact ih (i + 1) best n hb (by omega)

theorem findClosest_some_lt (dist : ℚ → ℚ → ℚ → ℚ → ℚ)
    (shape : List ShapePoint) (lat lng : ℚ) (h : shape ≠ []) :
    ∃ r, findClosestPointOnShape dist shape lat lng = some r ∧
      r.2.1 < shape.length := by
  cases shape with
  | nil => exact absurd rfl h
  | cons p0 rest =>
    refine ⟨_, rfl, ?_⟩
    exact closestAux_index_lt dist lat lng rest 1
      (p0, 0, dist lat lng p0.lat p0.lng) (rest.length + 1) (by simp) (by omega)

theorem segDistancesFrom_some (dist : ℚ → ℚ → ℚ → ℚ → ℚ)
    (shape : List ShapePoint) :
    ∀ (n i : ℕ) (total : ℚ), i + n < shape.length →
      ∃ l, segDistancesFrom dist shape i n total = some l ∧ l.length = n := by
  intro n
  induction n with
  | zero => intro i total _; exact ⟨[], rfl, rfl⟩
  | succ n ih =>
    intro i total h
    have hi : i < shape.length := by omega
    have hi1 : i + 1 < shape.length := by omega
    obtain ⟨l, hl, hlen⟩ :=
      ih (i + 1) (total + dist (shape.get ⟨i, hi⟩).lat (shape.get ⟨i, hi⟩).lng
        (shape.get ⟨i + 1, hi1⟩).lat (shape.get ⟨i + 1, hi1⟩).lng) (by omega)
    refine ⟨(total + dist (shape.get ⟨i, hi⟩).lat (shape.get ⟨i, hi⟩).lng
        (shape.get ⟨i + 1, hi1⟩).lat (shape.get ⟨i + 1, hi1⟩).lng) :: l, ?_, ?_⟩
    · simp only [segDistancesFrom, shapeGet, List.get?_eq_get hi,
        List.get?_eq_get hi1, Option.some_bind]
      rw [hl]
      rfl
    · simp [hlen]

theorem findSegmentIndex_lt (sds : List ℚ) (target : ℚ) (h : 1 < sds.length) :
    findSegmentIndex sds target < sds.length - 1 := by
  unfold findSegmentIndex
  cases hf : (List.range (sds.length - 1)).find?
      (fun i => decide (sds.getD i 0 ≤ target ∧ target ≤ sds.getD (i + 1) 0)) with
  | none =>
    show 0 < sds.length - 1
    omega
  | some i =>
    show i < sds.length - 1
    exact List.mem_range.mp (List.mem_of_find?_eq_some hf)

theorem interpolateAlongShape_some (dist : ℚ → ℚ → ℚ → ℚ → ℚ)
    (shape : List ShapePoint) (si ei : ℕ) (progress : ℚ)
    (hle : si ≤ ei) (hlt : ei < shape.length) :
    ∃ r, interpolateAlongShape dist shape si ei progress = some r := by
  unfold interpolateAlongShape
  by_cases heq : si = ei
  · rw [if_pos heq]
    subst heq
    rw [show shapeGet shape si = some (shape.get ⟨si, hlt⟩) from List.get?_eq_get hlt]
    exact ⟨_, rfl⟩
  · rw [if_neg heq]
    have hsei : si < ei := lt_of_le_of_ne hle heq
    obtain ⟨l, hl, hlen⟩ := segDistancesFrom_some dist shape (ei - si) si 0 (by omega)
    simp only [segDistances, hl, Option.map_some', Option.some_bind]
    have hsi : si < shape.length := by omega
    by_cases h0 : (0 :: l : List ℚ).getLastD 0 = 0
    · rw [if_pos h0]
      rw [show shapeGet shape si = some (shape.get ⟨si, hsi⟩) from List.get?_eq_get hsi]
      exact ⟨_, rfl⟩
    · rw [if_neg h0]
      have hseg : findSegmentIndex (0 :: l) (progress * (0 :: l : List ℚ).getLastD 0)
          < (0 :: l : List ℚ).length - 1 := by
        apply findSegmentIndex_lt
        simp only [List.length_cons, hlen]
        omega
      simp only [List.length_cons, hlen] at hseg
      have h1 : si + findSegmentIndex (0 :: l) (progress * (0 :: l : List ℚ).getLastD 0)
          < shape.length := by omega
      have h2 : si + findSegmentIndex (0 :: l) (progress * (0 :: l : List ℚ).getLastD 0) + 1
          < shape.length := by omega
      rw [show shapeGet shape (si + findSegmentIndex (0 :: l)
            (progress * (0 :: l : List ℚ).getLastD 0))
          = some (shape.get ⟨_, h1⟩) from List.get?_eq_get h1]
      rw [show shapeGet shape (si + findSegmentIndex (0 :: l)
            (progress * (0 :: l : List ℚ).getLastD 0) + 1)
          = some (shape.get ⟨_, h2⟩) from List.get?_eq_get h2]
      exact ⟨_, rfl⟩

theorem mem_of_lookup_eq_some {α β : Type} [BEq α] [LawfulBEq α] {k : α} {v : β}
    {l : List (α × β)} (h : List.lookup k l = some v) : (k, v) ∈ l := by
  obtain ⟨l₁, l₂, rfl, -⟩ := List.lookup_eq_some_iff.mp h
  simp

/-- C10: for any distance function, stops, times and optional shape id,
and any schedule all of whose shape polylines are non-empty,
`interpolateTrainPosition` produces a position: the `null` alternative of
its declared return type (and the crash on an empty shape, modelled as
`none`) never occurs. -/
theorem C10_interpolate_total (dist : ℚ → ℚ → ℚ → ℚ → ℚ) (A B : Stop)
    (lastT nextT t : ℚ) (sd : StaticGTFSData) (sid : Option String)
    (hne : ∀ p ∈ sd.shapes, p.2 ≠ []) :
    (interpolateTrainPosition dist A B lastT nextT t sd sid).isSome := by
  unfold interpolateTrainPosition
  by_cases htr : nextT - lastT ≤ 0
  · rw [if_pos htr]
    rfl
  · rw [if_neg htr]
    split
    · next shape heq =>
      have hshape_ne : shape ≠ [] := by
        cases sid with
        | none => simp [lookupShape] at heq
        | some s =>
          simp only [lookupShape] at heq
          by_cases hse : s = ""
          · rw [if_pos hse] at heq
            cases heq
          · rw [if_neg hse] at heq
            exact hne (s, shape) (mem_of_lookup_eq_some heq)
      obtain ⟨rA, hrA, hltA⟩ := findClosest_some_lt dist shape A.lat A.lng hshape_ne
      obtain ⟨rB, hrB, hltB⟩ := findClosest_some_lt dist shape B.lat B.lng hshape_ne
      obtain ⟨r, hr⟩ := interpolateAlongShape_some dist shape
        (min rA.2.1 rB.2.1) (max rA.2.1 rB.2.1)
        ((max lastT (min t nextT) - lastT) / (nextT - lastT))
        (min_le_max) (by simp [hltA, hltB])
      simp [hrA, hrB, hr]
    · rfl

/-- Witness for C10 on a schedule with one non-empty shape that the
interpolation actually follows. -/
theorem C10_witness :
    (∀ p ∈ ([("s", [ShapePoint.mk "s" 0 0 0, ShapePoint.mk "s" 1 1 1])] :
        List (String × List ShapePoint)), p.2 ≠ []) ∧
    (interpolateTrainPosition (fun a b c d => (a - c) ^ 2 + (b - d) ^ 2)
      ⟨"a", "A", 0, 0⟩ ⟨"b", "B", 1, 1⟩ 100 200 150
      ⟨[], [("s", [ShapePoint.mk "s" 0 0 0, ShapePoint.mk "s" 1 1 1])], [], [], []⟩
      (some "s")).isSome := by
  constructor
  · decide
  · exact C10_interpolate_total (fun a b c d => (a - c) ^ 2 + (b - d) ^ 2)
      ⟨"a", "A", 0, 0⟩ ⟨"b", "B", 1, 1⟩ 100 200 150
      ⟨[], [("s", [ShapePoint.mk "s" 0 0 0, ShapePoint.mk "s" 1 1 1])], [], [], []⟩
      (some "s") (by decide)

/-! ## Route resolution and trip-update processing
(`src/data-sources/mta.ts`, `MTASource.getRouteInfo` /
`MTASource.processTripUpdates`)

JavaScript string falsiness is modelled by treating `""` as "unset", as
the source's truthiness checks do.  A thrown exception (reading a member
of `undefined`) is modelled as `none` at the outermost `Option` layer,
matching the `try`/`catch` in `fetchData` that discards the whole cycle. -/

/-- JavaScript `String.prototype.trim`: strip leading and trailing whitespace. -/
def jsTrim (s : String) : String :=
  String.mk (((s.data.dropWhile Char.isWhitespace).reverse.dropWhile
    Char.isWhitespace).reverse)

/-- The call `.replace(/^["']|["']$/g, '')`: drop one leading and one trailing
single or double quote. -/
def stripQuotes (s : String) : String :=
  let l := s.data
  let l1 := match l with
    | c :: rest => if c = '"' ∨ c = '\'' then rest else l
    | [] => []
  let l2 := match l1.getLast? with
    | some c => if c = '"' ∨ c = '\'' then l1.dropLast else l1
    | none => l1
  String.mk l2

/-- The normalization `String(routeId).trim().replace(/^["']|["']$/g, '')`. -/
def normalizeRouteId (s : String) : String :=
  stripQuotes (jsTrim s)

def isUpper (c : Char) : Bool :=
  decide ('A' ≤ c ∧ c ≤ 'Z')

def isUpperDigit (c : Char) : Bool :=
  decide (('A' ≤ c ∧ c ≤ 'Z') ∨ ('0' ≤ c ∧ c ≤ '9'))

/-- The call `tripId.match(/_([A-Z0-9]+)\.\./)`: the first position holding `_`
followed by a non-empty `[A-Z0-9]` run immediately followed by `..`;
the capture is that run (greedy, and since `.` is outside the class no
shorter backtrack can succeed). -/
def matchUnderscoreRoute : List Char → Option String
  | [] => none
  | c :: rest =>
    if c = '_' then
      let run := rest.takeWhile isUpperDigit
      if run ≠ [] ∧ (rest.drop run.length).take 2 = ['.', '.'] then
        some (String.mk run)
      else matchUnderscoreRoute rest
    else matchUnderscoreRoute rest

/-- The second pattern of `getRouteInfo`, `[A-Z]+-([A-Z0-9]+)-` : the
first position holding a non-empty `[A-Z]` run, a dash, a non-empty
`[A-Z0-9]` capture, a dash; both runs are maximal since the dash is
outside both classes. -/
def matchPrefixRoute : List Char → Option String
  | [] => none
  | c :: rest =>
    let letters := (c :: rest).takeWhile isUpper
    let afterLetters := (c :: rest).drop letters.length
    if letters ≠ [] then
      match afterLetters with
      | '-' :: tail =>
        let run := tail.takeWhile isUpperDigit
        if run ≠ [] ∧ (tail.drop run.length).head? = some '-' then
          some (String.mk run)
        else matchPrefixRoute rest
      | _ => matchPrefixRoute rest
    else matchPrefixRoute rest

/-- The last-resort pattern extraction from `getRouteInfo`: the
underscore pattern first, else the prefix pattern filtered by
`/^[A-Z0-9]{1,3}$/`; `""` when neither yields a route id. -/
def extractRouteFromTripId (tripId : String) : String :=
  match matchUnderscoreRoute tripId.data with
  | some r => r
  | none =>
    match matchPrefixRoute tripId.data with
    | some r =>
      if r.data.all isUpperDigit ∧ 1 ≤ r.data.length ∧ r.data.length ≤ 3 then r
      else ""
    | none => ""

/-- The GTFS-RT trip descriptor fields `getRouteInfo` and
`processTripUpdates` read. -/
structure TripDescriptor where
  tripId : Option String
  routeId : Option String
  directionId : Option ℤ
deriving DecidableEq, Repr, Inhabited

/-- The result record of `getRouteInfo`. -/
structure RouteInfo where
  displayRouteId : String
  routeColor : Option String
deriving DecidableEq, Repr

/-- The lookup `staticData.trips.get(tripId)?.routeId`, with `""` for a missing
entry (both are falsy where the value is consulted). -/
def staticTripRouteId (tripId : String) (sd : StaticGTFSData) : String :=
  match sd.trips.lookup tripId with
  | some staticTrip => staticTrip.routeId
  | none => ""

/-- The candidate-route-id selection of `getRouteInfo`: the descriptor's
`routeId` (trimmed) when truthy — only otherwise the static trip table —
and the tripId pattern extraction when the result so far is falsy. -/
def resolveCandidateRouteId (trip : TripDescriptor) (tripId : String)
    (sd : StaticGTFSData) : String :=
  let routeId1 : String :=
    match trip.routeId with
    | some r => if r = "" then staticTripRouteId tripId sd else jsTrim r
    | none => staticTripRouteId tripId sd
  if routeId1 = "" then extractRouteFromTripId tripId else routeId1

/-- The display part of `getRouteInfo`: shortName, else longName, else
the bare routeId; the color with `#` prepended when missing. -/
def routeDisplay (route : Route) : RouteInfo :=
  let displayRouteId :=
    if jsTrim route.routeShortName ≠ "" then jsTrim route.routeShortName
    else if jsTrim route.routeLongName ≠ "" then jsTrim route.routeLongName
    else route.routeId
  let routeColor :=
    if jsTrim route.routeColor ≠ "" then
      let color := jsTrim route.routeColor
      some (if color.data.head? = some '#' then color else "#" ++ color)
    else none
  { displayRouteId := displayRouteId, routeColor := routeColor }

/-- Method `MTASource.getRouteInfo`: resolve a candidate route id by the
three-strategy chain, normalize it, and look it up in the static Route
table; `none` when no candidate was found or the candidate has no Route
entry. -/
def getRouteInfo (trip : TripDescriptor) (tripId : String)
    (sd : StaticGTFSData) : Option RouteInfo :=
  let routeId := resolveCandidateRouteId trip tripId sd
  if routeId = "" then none
  else
    match sd.routes.lookup (normalizeRouteId routeId) with
    | some route => some (routeDisplay route)
    | none => none

/-- A GTFS-RT `StopTimeEvent`: an optional timestamp. -/
structure StopTimeEvent where
  time : Option ℤ
deriving DecidableEq, Repr, Inhabited

structure StopTimeUpdate where
  arrival : Option StopTimeEvent
  departure : Option StopTimeEvent
  stopId : Option String
deriving DecidableEq, Repr, Inhabited

structure TripUpdate where
  trip : Option TripDescriptor
  stopTimeUpdate : List StopTimeUpdate
deriving DecidableEq, Repr, Inhabited

structure FeedEntity where
  tripUpdate : Option TripUpdate
deriving DecidableEq, Repr, Inhabited

structure FeedMessage where
  entity : Option (List FeedEntity)
deriving DecidableEq, Repr, Inhabited

/-- The train-position record built by `processTripUpdates`.  `heading`
reads a field `InterpolatedPosition` does not carry, so it is always
undefined (`none`). -/
structure TrainPosition where
  lat : ℚ
  lng : ℚ
  tripId : String
  routeId : String
  routeColor : Option String
  direction : ℤ
  nextStop : Option String
  lastStop : Option String
  progress : Option ℚ
  heading : Option ℚ
deriving DecidableEq, Repr

/-- Helper `timestampToUnix` applied through optional chaining: 0 for a missing
event or missing/zero timestamp (`if (!timestamp) return 0`). -/
def tsOrZero (e : Option StopTimeEvent) : ℤ :=
  match e with
  | some ev => ev.time.getD 0
  | none => 0

/-- JavaScript `a || b` on numbers: `b` when `a` is 0 (falsy). -/
def jsOr (a b : ℤ) : ℤ :=
  if a = 0 then b else a

/-- The read `update.arrival ? unix(update.arrival.time) : null`, with JS
truthiness folded in: `false` for `null` and for time 0. -/
def truthyTime (e : Option StopTimeEvent) : Bool :=
  match e with
  | some ev => ev.time.getD 0 != 0
  | none => false

/-- The stop-time scan of `processTripUpdates`: walk the updates in
order keeping the last index whose time is at or before `currentTime`;
stop at the first strictly later one (`break` after setting
`nextStopIndex`); entries with no usable time are skipped. -/
def scanStopTimesAux (currentTime : ℤ) :
    List StopTimeUpdate → ℕ → Option ℕ → Option ℕ × Option ℕ
  | [], _, last => (last, none)
  | u :: rest, i, last =>
    if ¬ truthyTime u.arrival ∧ ¬ truthyTime u.departure then
      scanStopTimesAux currentTime rest (i + 1) last
    else
      let stopTime :=
        if truthyTime u.arrival then tsOrZero u.arrival
        else if truthyTime u.departure then tsOrZero u.departure
        else 0
      if stopTime ≤ currentTime then
        scanStopTimesAux currentTime rest (i + 1) (some i)
      else
        (last, some i)

/-- The shape-matching loop of `findShapeForTrip`: the first shape both
of whose endpoints lie within 500 of the trip's first and last stops.
Reading the endpoint of an empty polyline throws in JS: `none`. -/
def findShapeForTripAux (dist : ℚ → ℚ → ℚ → ℚ → ℚ) (firstStop lastStop : Stop) :
    List (String × List ShapePoint) → Option (Option String)
  | [] => some none
  | (shapeId, shapePoints) :: rest =>
    match shapePoints.head?, shapePoints.getLast? with
    | some fsp, some lsp =>
      if dist firstStop.lat firstStop.lng fsp.lat fsp.lng < 500 ∧
         dist lastStop.lat lastStop.lng lsp.lat lsp.lng < 500 then
        some (some shapeId)
      else findShapeForTripAux dist firstStop lastStop rest
    | _, _ => none

/-- Function `findShapeForTrip` from `mta-interpolation.ts`.  The outer `Option`
is the crash layer, the inner one the function's declared `null`. -/
def findShapeForTrip (dist : ℚ → ℚ → ℚ → ℚ → ℚ) (tripId : String)
    (sd : StaticGTFSData) : Option (Option String) :=
  match sd.stopTimes.lookup tripId with
  | none => some none
  | some [] => some none
  | some (st0 :: sts) =>
    match sd.stops.lookup st0.stopId,
        sd.stops.lookup (((st0 :: sts).getLast (List.cons_ne_nil _ _)).stopId) with
    | some firstStop, some lastStop =>
      findShapeForTripAux dist firstStop lastStop sd.shapes
    | _, _ => some none

/-- The `tripShapeCache` logic of `processTripUpdates`: a truthy cached
shape id is used as is; otherwise `findShapeForTrip` is consulted and a
truthy result is cached (`Map.set` modelled by shadowing cons). -/
def resolveShapeId (dist : ℚ → ℚ → ℚ → ℚ → ℚ) (tripId : String)
    (sd : StaticGTFSData) (cache : List (String × String)) :
    Option (Option String × List (String × String)) :=
  let cached : Option String :=
    match cache.lookup tripId with
    | some s => if s = "" then none else some s
    | none => none
  match cached with
  | some s => some (some s, cache)
  | none =>
    match findShapeForTrip dist tripId sd with
    | none => none
    | some (some s) =>
      if s = "" then some (none, cache) else some (some s, (tripId, s) :: cache)
    | some none => some (none, cache)

/-- Processing of one feed entity by `processTripUpdates`: skip entities
with no trip update or no resolvable route; scan the stop times; with a
last and a next stop, interpolate between them; with only a last stop,
report the vehicle there at progress 1.  Returns the contributed trains
and the updated shape cache, `none` on a JS crash. -/
def processEntity (dist : ℚ → ℚ → ℚ → ℚ → ℚ) (currentTime : ℤ)
    (sd : StaticGTFSData) (cache : List (String × String)) (e : FeedEntity) :
    Option (List TrainPosition × List (String × String)) :=
  match e.tripUpdate with
  | none => some ([], cache)
  | some tu =>
    match tu.trip with
    | none => some ([], cache)
    | some trip =>
      let tripId := trip.tripId.getD ""
      match getRouteInfo trip tripId sd with
      | none => some ([], cache)
      | some routeInfo =>
        let direction := trip.directionId.getD 0
        if tu.stopTimeUpdate.isEmpty then some ([], cache)
        else
          match scanStopTimesAux currentTime tu.stopTimeUpdate 0 none with
          | (some li, some ni) =>
            let lastUpdate := tu.stopTimeUpdate.getD li default
            let nextUpdate := tu.stopTimeUpdate.getD ni default
            let lastStopId := lastUpdate.stopId.getD ""
            let nextStopId := nextUpdate.stopId.getD ""
            match sd.stops.lookup lastStopId, sd.stops.lookup nextStopId with
            | some lastStop, some nextStop =>
              let lastStopTime :=
                jsOr (tsOrZero lastUpdate.departure)
                  (jsOr (tsOrZero lastUpdate.arrival) currentTime)
              let nextStopTime :=
                jsOr (tsOrZero nextUpdate.arrival)
                  (jsOr (tsOrZero nextUpdate.departure) currentTime)
              match resolveShapeId dist tripId sd cache with
              | none => none
              | some (shapeId, cache') =>
                match interpolateTrainPosition dist lastStop nextStop
                    (lastStopTime : ℚ) (nextStopTime : ℚ) (currentTime : ℚ)
                    sd shapeId with
                | none => none
                | some position =>
                  some ([{ lat := position.lat, lng := position.lng,
                           tripId := tripId,
                           routeId := routeInfo.displayRouteId,
                           routeColor := routeInfo.routeColor,
                           direction := direction,
                           nextStop := some nextStop.stopName,
                           lastStop := some lastStop.stopName,
                           progress := some position.progress,
                           heading := none }], cache')
            | _, _ => some ([], cache)
          | (some li, none) =>
            let lastUpdate := tu.stopTimeUpdate.getD li default
            let lastStopId := lastUpdate.stopId.getD ""
            match sd.stops.lookup lastStopId with
            | some lastStop =>
              some ([{ lat := lastStop.lat, lng := lastStop.lng,
                       tripId := tripId,
                       routeId := routeInfo.displayRouteId,
                       routeColor := routeInfo.routeColor,
                       direction := direction,
                       nextStop := none,
                       lastStop := some lastStop.stopName,
                       progress := some 1,
                       heading := none }], cache)
            | none => some ([], cache)
          | (none, _) => some ([], cache)

/-- Sequential processing of the entity list, threading the shape cache
and accumulating trains in order; a crash aborts the whole cycle (the
`try`/`catch` in `fetchData`). -/
def processTripUpdatesAux (dist : ℚ → ℚ → ℚ → ℚ → ℚ) (currentTime : ℤ)
    (sd : StaticGTFSData) :
    List FeedEntity → List (String × String) → List TrainPosition →
      Option (List TrainPosition)
  | [], _, acc => some acc
  | e :: rest, cache, acc =>
    match processEntity dist currentTime sd cache e with
    | none => none
    | some (ts, cache') => processTripUpdatesAux dist currentTime sd rest cache' (acc ++ ts)

/-- Method `MTASource.processTripUpdates` for one feed message, given the
current shape cache. -/
def processTripUpdates (dist : ℚ → ℚ → ℚ → ℚ → ℚ) (currentTime : ℤ)
    (feed : FeedMessage) (sd : StaticGTFSData) (cache : List (String × String)) :
    Option (List TrainPosition) :=
  match feed.entity with
  | none => some []
  | some entities => processTripUpdatesAux dist currentTime sd entities cache []

/-- C4: a trip descriptor carrying an explicit (non-blank) `routeId`
resolves through that routeId alone — the result is the Route-table
lookup of its normalization, for every tripId and every static table, so
the static Trip-table and tripId-pattern fallbacks are never consulted
(in particular not when the static table implies a different routeId). -/
theorem C4_route_precedence (trip : TripDescriptor) (r : String)
    (htr : trip.routeId = some r) (hr : jsTrim r ≠ "") (tid : String)
    (sd : StaticGTFSData) :
    getRouteInfo trip tid sd
      = (sd.routes.lookup (normalizeRouteId (jsTrim r))).map routeDisplay := by
  have hrne : r ≠ "" := by
    intro h
    subst h
    exact hr rfl
  unfold getRouteInfo resolveCandidateRouteId
  rw [htr]
  simp only [if_neg hrne, if_neg hr]
  cases sd.routes.lookup (normalizeRouteId (jsTrim r)) <;> rfl

/-- Witness for C4: the descriptor says route `A` while the static Trip
table maps the same tripId to route `B`; resolution returns `A`'s
display record. -/
theorem C4_witness :
    (TripDescriptor.mk (some "t1") (some "A") none).routeId = some "A" ∧
    jsTrim "A" ≠ "" ∧
    getRouteInfo (TripDescriptor.mk (some "t1") (some "A") none) "t1"
      ⟨[], [], [], [("t1", Trip.mk "t1" "B" "" "" 0 "")],
        [("A", Route.mk "A" "" "Ashort" "" "" 0 "" "FF0000" "" 0),
         ("B", Route.mk "B" "" "Bshort" "" "" 0 "" "0000FF" "" 0)]⟩
      = some (RouteInfo.mk "Ashort" (some "#FF0000")) := by
  refine ⟨rfl, by decide, ?_⟩
  rw [C4_route_precedence (TripDescriptor.mk (some "t1") (some "A") none) "A"
    rfl (by decide) "t1" _]
  decide

theorem processTripUpdatesAux_skip (dist : ℚ → ℚ → ℚ → ℚ → ℚ) (now : ℤ)
    (sd : StaticGTFSData) (e : FeedEntity)
    (hskip : ∀ cache, processEntity dist now sd cache e = some ([], cache)) :
    ∀ (pre post : List FeedEntity) (cache : List (String × String))
      (acc : List TrainPosition),
      processTripUpdatesAux dist now sd (pre ++ e :: post) cache acc
        = processTripUpdatesAux dist now sd (pre ++ post) cache acc := by
  intro pre
  induction pre with
  | nil =>
    intro post cache acc
    simp only [List.nil_append, processTripUpdatesAux, hskip cache, List.append_nil]
  | cons e' t ih =>
    intro post cache acc
    simp only [List.cons_append, processTripUpdatesAux]
    cases hpe : processEntity dist now sd cache e' with
    | none => rfl
    | some p =>
      obtain ⟨ts, c'⟩ := p
      exact ih post c' (acc ++ ts)

/-- C5: when the resolved, normalized candidate route id has no entry in
the static Route table, `getRouteInfo` returns `none`, the entity
contributes no train and leaves the shape cache untouched, and the
output batch of `processTripUpdates` is exactly the batch computed
without that entity — the vehicle is dropped, not emitted with a
placeholder route. -/
theorem C5_unresolvable_route_dropped (dist : ℚ → ℚ → ℚ → ℚ → ℚ) (now : ℤ)
    (sd : StaticGTFSData) (e : FeedEntity) (tu : TripUpdate)
    (trip : TripDescriptor) (he : e.tripUpdate = some tu) (ht : tu.trip = some trip)
    (hr : sd.routes.lookup (normalizeRouteId
      (resolveCandidateRouteId trip (trip.tripId.getD "") sd)) = none) :
    getRouteInfo trip (trip.tripId.getD "") sd = none ∧
    (∀ cache, processEntity dist now sd cache e = some ([], cache)) ∧
    (∀ (pre post : List FeedEntity) (cache : List (String × String)),
      processTripUpdates dist now ⟨some (pre ++ e :: post)⟩ sd cache
        = processTripUpdates dist now ⟨some (pre ++ post)⟩ sd cache) := by
  have hnone : getRouteInfo trip (trip.tripId.getD "") sd = none := by
    unfold getRouteInfo
    by_cases hc : resolveCandidateRouteId trip (trip.tripId.getD "") sd = ""
    · simp only [if_pos hc]
    · simp only [if_neg hc, hr]
  have hskip : ∀ cache, processEntity dist now sd cache e = some ([], cache) := by
    intro cache
    unfold processEntity
    rw [he]
    simp only [ht, hnone]
  refine ⟨hnone, hskip, fun pre post cache => ?_⟩
  unfold processTripUpdates
  exact processTripUpdatesAux_skip dist now sd e hskip pre post cache []

/-- Witness for C5: a feed entity whose trip resolves to route `X`,
absent from an empty Route table, contributes nothing. -/
theorem C5_witness :
    (FeedEntity.mk (some (TripUpdate.mk (some (TripDescriptor.mk (some "t1")
        (some "X") none)) []))).tripUpdate
      = some (TripUpdate.mk (some (TripDescriptor.mk (some "t1") (some "X") none)) []) ∧
    (StaticGTFSData.mk [] [] [] [] []).routes.lookup (normalizeRouteId
      (resolveCandidateRouteId (TripDescriptor.mk (some "t1") (some "X") none)
        "t1" (StaticGTFSData.mk [] [] [] [] []))) = none ∧
    getRouteInfo (TripDescriptor.mk (some "t1") (some "X") none) "t1"
      (StaticGTFSData.mk [] [] [] [] []) = none ∧
    processTripUpdates (fun _ _ _ _ => 0) 0
        ⟨some [FeedEntity.mk (some (TripUpdate.mk (some (TripDescriptor.mk
          (some "t1") (some "X") none)) []))]⟩
        (StaticGTFSData.mk [] [] [] [] []) []
      = processTripUpdates (fun _ _ _ _ => 0) 0 ⟨some []⟩
        (StaticGTFSData.mk [] [] [] [] []) [] := by
  have h := C5_unresolvable_route_dropped (fun _ _ _ _ => 0) 0
    (StaticGTFSData.mk [] [] [] [] [])
    (FeedEntity.mk (some (TripUpdate.mk (some (TripDescriptor.mk (some "t1")
      (some "X") none)) [])))
    (TripUpdate.mk (some (TripDescriptor.mk (some "t1") (some "X") none)) [])
    (TripDescriptor.mk (some "t1") (some "X") none) rfl rfl (by decide)
  refine ⟨rfl, by decide, ?_, ?_⟩
  · simpa using h.1
  · simpa using h.2.2 [] [] []

/-! ## The fan-out log of `RegionFetcher`
(`src/websocket_server.ts`, `messages` / `listeners` /
`sendMessagesToClient` / `addRef` / `removeRef`)

The event loop is single threaded: each scheduled
`sendMessagesToClient(i)` callback runs atomically, draining listener
`i`'s cursor to the end of the log.  A trace interleaves appends,
listener attachments, detachments and drain-task firings in any order.
`delivered` is the ghost sequence of messages actually sent over a
listener's socket, in send order. -/

structure Listener where
  messageIndex : ℕ
  ws : Option ℕ
  delivered : List String
deriving DecidableEq, Repr

structure FetcherLogState where
  messages : List String
  listeners : List Listener
deriving DecidableEq, Repr

/-- The while loop's effect on one attached listener: the messages from
the cursor to the end of the log are sent in order and the cursor ends
at the log's length. -/
def drainedListener (s : FetcherLogState) (l : Listener) : Listener :=
  { l with messageIndex := s.messages.length,
           delivered := l.delivered ++ s.messages.drop l.messageIndex }

/-- One `sendMessagesToClient(i)` timeout callback: read `ws` once; when
attached, send every message from the cursor to the end of the log and
advance the cursor. -/
def drainListener (s : FetcherLogState) (i : ℕ) : FetcherLogState :=
  match s.listeners.get? i with
  | none => s
  | some l =>
    match l.ws with
    | none => s
    | some _ => { s with listeners := s.listeners.set i (drainedListener s l) }

inductive FetcherEvent where
  | append (msg : String)
  | addListener (ws : ℕ)
  | detach (ws : ℕ)
  | drain (i : ℕ)
deriving DecidableEq, Repr

/-- Event `append` is `addAndBroadcastMessage`'s push (the per-listener sends
it schedules fire later as `drain` events); `addListener` is `addRef`'s
push of a cursor-0 entry (its catch-up send is likewise a scheduled
`drain`); `detach` is `removeRef`'s nulling of the matching entries. -/
def fetcherStep (s : FetcherLogState) : FetcherEvent → FetcherLogState
  | .append msg => { s with messages := s.messages ++ [msg] }
  | .addListener ws =>
    { s with listeners := s.listeners ++ [{ messageIndex := 0, ws := some ws, delivered := [] }] }
  | .detach ws =>
    { s with listeners := s.listeners.map fun l =>
        if l.ws = some ws then { l with ws := none } else l }
  | .drain i => drainListener s i

def fetcherRun (events : List FetcherEvent) : FetcherLogState :=
  events.foldl fetcherStep { messages := [], listeners := [] }

/-- The per-listener invariant: the delivered trace is exactly the log
prefix below the cursor, and the cursor never passes the log end. -/
def ListenerOK (log : List String) (l : Listener) : Prop :=
  l.messageIndex ≤ log.length ∧ l.delivered = log.take l.messageIndex

theorem drainListener_eq_of_oob (s : FetcherLogState) (i : ℕ)
    (hg : s.listeners.get? i = none) : drainListener s i = s := by
  unfold drainListener
  rw [hg]

theorem drainListener_eq_of_detached (s : FetcherLogState) (i : ℕ) (l₀ : Listener)
    (hg : s.listeners.get? i = some l₀) (hw : l₀.ws = none) :
    drainListener s i = s := by
  obtain ⟨mi, ows, dl⟩ := l₀
  change ows = none at hw
  subst hw
  unfold drainListener
  rw [hg]

theorem drainListener_eq_of_attached (s : FetcherLogState) (i : ℕ) (l₀ : Listener)
    (w : ℕ) (hg : s.listeners.get? i = some l₀) (hw : l₀.ws = some w) :
    drainListener s i
      = { s with listeners := s.listeners.set i (drainedListener s l₀) } := by
  obtain ⟨mi, ows, dl⟩ := l₀
  change ows = some w at hw
  subst hw
  unfold drainListener
  rw [hg]

theorem fetcherStep_preserves (s : FetcherLogState) (ev : FetcherEvent)
    (h : ∀ l ∈ s.listeners, ListenerOK s.messages l) :
    ∀ l ∈ (fetcherStep s ev).listeners, ListenerOK (fetcherStep s ev).messages l := by
  cases ev with
  | append m =>
    intro l hl
    simp only [fetcherStep] at hl ⊢
    obtain ⟨h1, h2⟩ := h l hl
    refine ⟨by simp; omega, ?_⟩
    rw [List.take_append_of_le_length h1]
    exact h2
  | addListener w =>
    intro l hl
    simp only [fetcherStep] at hl ⊢
    rcases List.mem_append.mp hl with h' | h'
    · exact h l h'
    · simp only [List.mem_singleton] at h'
      subst h'
      exact ⟨Nat.zero_le _, rfl⟩
  | detach w =>
    intro l hl
    simp only [fetcherStep] at hl ⊢
    obtain ⟨l₀, hl₀, rfl⟩ := List.mem_map.mp hl
    obtain ⟨h1, h2⟩ := h l₀ hl₀
    by_cases hw : l₀.ws = some w
    · simp only [if_pos hw]
      exact ⟨h1, h2⟩
    · simp only [if_neg hw]
      exact ⟨h1, h2⟩
  | drain i =>
    have hstep : fetcherStep s (FetcherEvent.drain i) = drainListener s i := rfl
    rw [hstep]
    cases hg : s.listeners.get? i with
    | none =>
      rw [drainListener_eq_of_oob s i hg]
      exact h
    | some l₀ =>
      cases hw : l₀.ws with
      | none =>
        rw [drainListener_eq_of_detached s i l₀ hg hw]
        exact h
      | some w =>
        rw [drainListener_eq_of_attached s i l₀ w hg hw]
        intro l hl
        rcases List.mem_or_eq_of_mem_set hl with h' | h'
        · exact h l h'
        · subst h'
          obtain ⟨h1, h2⟩ := h l₀ (List.get?_mem hg)
          refine ⟨le_refl _, ?_⟩
          show l₀.delivered ++ s.messages.drop l₀.messageIndex
            = s.messages.take s.messages.length
          rw [List.take_length, h2, List.take_append_drop]

theorem fetcherRun_inv (events : List FetcherEvent) :
    ∀ l ∈ (fetcherRun events).listeners, ListenerOK (fetcherRun events).messages l := by
  suffices h : ∀ (s : FetcherLogState), (∀ l ∈ s.listeners, ListenerOK s.messages l) →
      ∀ l ∈ (events.foldl fetcherStep s).listeners,
        ListenerOK (events.foldl fetcherStep s).messages l by
    exact h { messages := [], listeners := [] } (by simp)
  induction events with
  | nil => intro s hs; simpa using hs
  | cons ev t ih =>
    intro s hs
    exact ih (fetcherStep s ev) (fetcherStep_preserves s ev hs)

theorem fetcherStep_log_extends (s : FetcherLogState) (ev : FetcherEvent) :
    ∃ tail, (fetcherStep s ev).messages = s.messages ++ tail := by
  cases ev with
  | append m => exact ⟨[m], rfl⟩
  | addListener w => exact ⟨[], by simp [fetcherStep]⟩
  | detach w => exact ⟨[], by simp [fetcherStep]⟩
  | drain i =>
    refine ⟨[], ?_⟩
    have hstep : fetcherStep s (FetcherEvent.drain i) = drainListener s i := rfl
    rw [hstep, List.append_nil]
    cases hg : s.listeners.get? i with
    | none => rw [drainListener_eq_of_oob s i hg]
    | some l₀ =>
      cases hw : l₀.ws with
      | none => rw [drainListener_eq_of_detached s i l₀ hg hw]
      | some w => rw [drainListener_eq_of_attached s i l₀ w hg hw]

theorem fetcherRun_log_mono (events more : List FetcherEvent) :
    ∃ tail, (fetcherRun (events ++ more)).messages
      = (fetcherRun events).messages ++ tail := by
  suffices h : ∀ (s : FetcherLogState), ∃ tail,
      (more.foldl fetcherStep s).messages = s.messages ++ tail by
    simpa [fetcherRun, List.foldl_append] using h (fetcherRun events)
  induction more with
  | nil => intro s; exact ⟨[], by simp⟩
  | cons ev t ih =>
    intro s
    obtain ⟨t1, h1⟩ := fetcherStep_log_extends s ev
    obtain ⟨t2, h2⟩ := ih (fetcherStep s ev)
    exact ⟨t1 ++ t2, by simp [h2, h1]⟩

/-- C1: in every interleaving, each listener's delivered trace is
exactly a prefix of the append-ordered log (in order, exactly once, no
skips — a listener attached after K messages therefore gets those K, in
log order, before anything appended later, since the log only grows by
appending); and once a drain task for an attached listener fires with no
further appends — as `addRef`'s catch-up and every append schedule —
that listener has received the entire log. -/
theorem C1_fanout_ordered_exactly_once (events : List FetcherEvent) :
    (∀ l ∈ (fetcherRun events).listeners,
      l.messageIndex ≤ (fetcherRun events).messages.length ∧
        l.delivered = (fetcherRun events).messages.take l.messageIndex) ∧
    (∀ more : List FetcherEvent, ∃ tail,
      (fetcherRun (events ++ more)).messages = (fetcherRun events).messages ++ tail) ∧
    (∀ (i : ℕ) (l₀ : Listener), (fetcherRun events).listeners.get? i = some l₀ →
      l₀.ws.isSome →
      ∃ l₁, (fetcherRun (events ++ [FetcherEvent.drain i])).listeners.get? i = some l₁ ∧
        l₁.delivered = (fetcherRun events).messages) := by
  refine ⟨fetcherRun_inv events, fetcherRun_log_mono events, ?_⟩
  intro i l₀ hg hw
  have hrun : fetcherRun (events ++ [FetcherEvent.drain i])
      = fetcherStep (fetcherRun events) (FetcherEvent.drain i) := by
    simp [fetcherRun, List.foldl_append]
  obtain ⟨h1, h2⟩ := fetcherRun_inv events l₀ (List.get?_mem hg)
  obtain ⟨w, hw'⟩ := Option.isSome_iff_exists.mp hw
  obtain ⟨hi, -⟩ := List.get?_eq_some.mp hg
  refine ⟨drainedListener (fetcherRun events) l₀, ?_, ?_⟩
  · rw [hrun]
    have hstep : fetcherStep (fetcherRun events) (FetcherEvent.drain i)
        = drainListener (fetcherRun events) i := rfl
    rw [hstep, drainListener_eq_of_attached (fetcherRun events) i l₀ w hg hw']
    rw [List.get?_eq_getElem?]
    exact List.getElem?_set_self hi
  · show l₀.delivered ++ (fetcherRun events).messages.drop l₀.messageIndex
      = (fetcherRun events).messages
    rw [h2, List.take_append_drop]

/-- Witness for C1: a listener attaches, two messages are appended, and
after the scheduled drain fires it has received the whole log. -/
theorem C1_witness :
    ((fetcherRun [FetcherEvent.addListener 7, FetcherEvent.append "a",
        FetcherEvent.append "b"]).listeners.get? 0
      = some (Listener.mk 0 (some 7) [])) ∧
    (Listener.mk 0 (some 7) []).ws.isSome = true ∧
    (∃ l₁, (fetcherRun ([FetcherEvent.addListener 7, FetcherEvent.append "a",
        FetcherEvent.append "b"] ++ [FetcherEvent.drain 0])).listeners.get? 0
        = some l₁ ∧
      l₁.delivered = (fetcherRun [FetcherEvent.addListener 7, FetcherEvent.append "a",
        FetcherEvent.append "b"]).messages) := by
  refine ⟨by decide, by decide, ?_⟩
  exact (C1_fanout_ordered_exactly_once [FetcherEvent.addListener 7,
    FetcherEvent.append "a", FetcherEvent.append "b"]).2.2 0
    (Listener.mk 0 (some 7) []) (by decide) (by decide)

/-! ## The ref-count lifecycle of `RegionFetcher`
(`src/websocket_server.ts`, `addRef` / `removeRef` / `destroy`)

`removeRef` at ref count zero captures `new Date()` both into
`lastAccessedTime` and into the timer closure, and the timer destroys
only under `this.lastAccessedTime === lastRefRemovalTime` — an object
*identity* comparison.  Each `new Date()` allocation is modelled as a
fresh token drawn from `nextToken`; identity equality is token
equality. -/

structure LifecycleState where
  refs : ℤ
  lastAccessedTime : ℕ
  nextToken : ℕ
  pending : List ℕ
  destroyed : Bool
  sourcesStopped : Bool
deriving DecidableEq, Repr

inductive LifeEvent where
  | addRef
  | removeRef
  | fire (t : ℕ)
deriving DecidableEq, Repr

/-- Method `addRef` bumps the count and refreshes `lastAccessedTime`;
`removeRef` decrements and, exactly when the count reaches zero,
captures a fresh token into `lastAccessedTime` and schedules a timer
holding that token; a timer firing destroys (stops the sources) only if
its captured token is still the current `lastAccessedTime`. -/
def lifeStep (s : LifecycleState) : LifeEvent → LifecycleState
  | .addRef =>
    { s with refs := s.refs + 1, lastAccessedTime := s.nextToken,
             nextToken := s.nextToken + 1 }
  | .removeRef =>
    if s.refs - 1 = 0 then
      { s with refs := s.refs - 1, lastAccessedTime := s.nextToken,
               nextToken := s.nextToken + 1, pending := s.pending ++ [s.nextToken] }
    else { s with refs := s.refs - 1 }
  | .fire t =>
    if t ∈ s.pending then
      if s.lastAccessedTime = t then
        { s with pending := s.pending.erase t, destroyed := true,
                 sourcesStopped := true }
      else { s with pending := s.pending.erase t }
    else s

/-- The constructor's state: zero refs, `lastAccessedTime` freshly
allocated, sources running. -/
def lifeInit : LifecycleState :=
  { refs := 0, lastAccessedTime := 0, nextToken := 1, pending := [],
    destroyed := false, sourcesStopped := false }

def lifeRun (events : List LifeEvent) : LifecycleState :=
  events.foldl lifeStep lifeInit

def lifeRunFrom (s : LifecycleState) (events : List LifeEvent) : LifecycleState :=
  events.foldl lifeStep s

/-- The state a stale timer leaves behind: only its pending entry is
consumed. -/
def erasePending (s : LifecycleState) (t : ℕ) : LifecycleState :=
  { s with pending := s.pending.erase t }

theorem lifeStep_nextToken_mono (s : LifecycleState) (ev : LifeEvent) :
    s.nextToken ≤ (lifeStep s ev).nextToken := by
  cases ev with
  | addRef =>
    show s.nextToken ≤ s.nextToken + 1
    omega
  | removeRef =>
    simp only [lifeStep]
    split
    · show s.nextToken ≤ s.nextToken + 1
      omega
    · exact le_refl _
  | fire t' =>
    simp only [lifeStep]
    split
    · split
      · exact le_refl _
      · exact le_refl _
    · exact le_refl _

theorem lifeRunFrom_nextToken_mono (tr : List LifeEvent) :
    ∀ s : LifecycleState, s.nextToken ≤ (lifeRunFrom s tr).nextToken := by
  induction tr with
  | nil => intro s; exact le_refl _
  | cons ev tl ih =>
    intro s
    exact le_trans (lifeStep_nextToken_mono s ev) (ih (lifeStep s ev))

theorem lifeQ_preserved (t : ℕ) (s : LifecycleState) (ev : LifeEvent)
    (h1 : s.lastAccessedTime = t) (h2 : t ∈ s.pending) (h3 : s.refs ≤ 0)
    (hev1 : ev ≠ LifeEvent.addRef) (hev2 : ev ≠ LifeEvent.fire t) :
    (lifeStep s ev).lastAccessedTime = t ∧ t ∈ (lifeStep s ev).pending ∧
      (lifeStep s ev).refs ≤ 0 := by
  cases ev with
  | addRef => exact absurd rfl hev1
  | removeRef =>
    simp only [lifeStep]
    rw [if_neg (by omega)]
    exact ⟨h1, h2, show s.refs - 1 ≤ 0 by omega⟩
  | fire t' =>
    have ht' : t' ≠ t := fun h => hev2 (by rw [h])
    simp only [lifeStep]
    by_cases hp : t' ∈ s.pending
    · rw [if_pos hp, if_neg (by rw [h1]; exact fun hh => ht' hh.symm)]
      exact ⟨h1, (List.mem_erase_of_ne (Ne.symm ht')).mpr h2, h3⟩
    · rw [if_neg hp]
      exact ⟨h1, h2, h3⟩

theorem lifeQ_run (t : ℕ) (tr : List LifeEvent)
    (hev : ∀ ev ∈ tr, ev ≠ LifeEvent.addRef ∧ ev ≠ LifeEvent.fire t) :
    ∀ s : LifecycleState, s.lastAccessedTime = t → t ∈ s.pending → s.refs ≤ 0 →
      (lifeRunFrom s tr).lastAccessedTime = t ∧ t ∈ (lifeRunFrom s tr).pending ∧
        (lifeRunFrom s tr).refs ≤ 0 := by
  induction tr with
  | nil => intro s h1 h2 h3; exact ⟨h1, h2, h3⟩
  | cons ev tl ih =>
    intro s h1 h2 h3
    have hev0 := hev ev (List.mem_cons_self _ _)
    obtain ⟨q1, q2, q3⟩ := lifeQ_preserved t s ev h1 h2 h3 hev0.1 hev0.2
    exact ih (fun e he => hev e (List.mem_cons_of_mem _ he)) (lifeStep s ev) q1 q2 q3

theorem lifeP_preserved (t : ℕ) (s : LifecycleState) (ev : LifeEvent)
    (h1 : t < s.nextToken) (h2 : s.lastAccessedTime ≠ t) :
    t < (lifeStep s ev).nextToken ∧ (lifeStep s ev).lastAccessedTime ≠ t := by
  cases ev with
  | addRef =>
    constructor
    · show t < s.nextToken + 1
      omega
    · show s.nextToken ≠ t
      omega
  | removeRef =>
    simp only [lifeStep]
    split
    · constructor
      · show t < s.nextToken + 1
        omega
      · show s.nextToken ≠ t
        omega
    · exact ⟨h1, h2⟩
  | fire t' =>
    simp only [lifeStep]
    split
    · split
      · exact ⟨h1, h2⟩
      · exact ⟨h1, h2⟩
    · exact ⟨h1, h2⟩

theorem lifeP_run (t : ℕ) (tr : List LifeEvent) :
    ∀ s : LifecycleState, t < s.nextToken → s.lastAccessedTime ≠ t →
      t < (lifeRunFrom s tr).nextToken ∧ (lifeRunFrom s tr).lastAccessedTime ≠ t := by
  induction tr with
  | nil => intro s h1 h2; exact ⟨h1, h2⟩
  | cons ev tl ih =>
    intro s h1 h2
    obtain ⟨p1, p2⟩ := lifeP_preserved t s ev h1 h2
    exact ih (lifeStep s ev) p1 p2

/-- A timer whose captured token is still the current
`lastAccessedTime` destroys the fetcher and stops the sources. -/
theorem fire_hit (s : LifecycleState) (t : ℕ) (hp : t ∈ s.pending)
    (hl : s.lastAccessedTime = t) :
    (lifeStep s (LifeEvent.fire t)).destroyed = true ∧
      (lifeStep s (LifeEvent.fire t)).sourcesStopped = true := by
  simp only [lifeStep]
  rw [if_pos hp, if_pos hl]
  exact ⟨rfl, rfl⟩

/-- A timer whose captured token no longer matches `lastAccessedTime`
only consumes its pending entry; every other field is untouched. -/
theorem fire_stale_noop (s : LifecycleState) (t : ℕ)
    (h : s.lastAccessedTime ≠ t) :
    lifeStep s (LifeEvent.fire t) = erasePending s t := by
  simp only [lifeStep]
  by_cases hp : t ∈ s.pending
  · rw [if_pos hp, if_neg h]
    rfl
  · rw [if_neg hp]
    unfold erasePending
    rw [List.erase_of_not_mem hp]

/-- C3: starting from any history after which one reference remains, the
`removeRef` that drops the count to zero schedules a timer capturing the
fresh `lastAccessedTime` token; (a) if no `addRef` (and no firing of
that very timer) happens before it fires, the firing destroys the
fetcher and stops its data sources; (b) if an `addRef` arrives anywhere
before the firing, the timer is stale: its firing only consumes the
pending entry, so it neither destroys the fetcher nor stops the
sources. -/
theorem C3_grace_period_lifecycle (tr₁ tr₂ : List LifeEvent)
    (h1 : (lifeRun tr₁).refs = 1) :
    ((∀ ev ∈ tr₂, ev ≠ LifeEvent.addRef ∧
        ev ≠ LifeEvent.fire (lifeRun tr₁).nextToken) →
      (lifeRun (tr₁ ++ LifeEvent.removeRef ::
          (tr₂ ++ [LifeEvent.fire (lifeRun tr₁).nextToken]))).destroyed = true ∧
      (lifeRun (tr₁ ++ LifeEvent.removeRef ::
          (tr₂ ++ [LifeEvent.fire (lifeRun tr₁).nextToken]))).sourcesStopped = true) ∧
    (∀ tra trb : List LifeEvent, tr₂ = tra ++ LifeEvent.addRef :: trb →
      lifeRun (tr₁ ++ LifeEvent.removeRef ::
          (tr₂ ++ [LifeEvent.fire (lifeRun tr₁).nextToken]))
        = erasePending (lifeRun (tr₁ ++ LifeEvent.removeRef :: tr₂))
            (lifeRun tr₁).nextToken) := by
  set s₀ := lifeRun tr₁ with hs₀
  set t := s₀.nextToken with ht
  have hsplit : ∀ tl : List LifeEvent,
      lifeRun (tr₁ ++ LifeEvent.removeRef :: tl)
        = lifeRunFrom (lifeStep s₀ LifeEvent.removeRef) tl := by
    intro tl
    simp [lifeRun, lifeRunFrom, List.foldl_append, hs₀]
  have hs₁ : lifeStep s₀ LifeEvent.removeRef
      = { s₀ with refs := 0, lastAccessedTime := t, nextToken := t + 1,
                  pending := s₀.pending ++ [t] } := by
    simp only [lifeStep]
    rw [if_pos (by omega)]
    rw [show s₀.refs - 1 = 0 by omega]
  have hend : ∀ tl : List LifeEvent,
      lifeRunFrom (lifeStep s₀ LifeEvent.removeRef)
          (tl ++ [LifeEvent.fire t])
        = lifeStep (lifeRunFrom (lifeStep s₀ LifeEvent.removeRef) tl)
            (LifeEvent.fire t) := by
    intro tl
    simp [lifeRunFrom, List.foldl_append]
  constructor
  · intro hev
    rw [hsplit, hend]
    obtain ⟨q1, q2, q3⟩ := lifeQ_run t tr₂ hev (lifeStep s₀ LifeEvent.removeRef)
      (by rw [hs₁]) (by rw [hs₁]; simp) (by rw [hs₁])
    exact fire_hit _ t q2 q1
  · intro tra trb htr
    rw [hsplit, hend, hsplit]
    have hstale : (lifeRunFrom (lifeStep s₀ LifeEvent.removeRef) tr₂).lastAccessedTime
        ≠ t := by
      subst htr
      have hnt : (lifeStep s₀ LifeEvent.removeRef).nextToken = t + 1 := by rw [hs₁]
      have hmono' := lifeRunFrom_nextToken_mono tra (lifeStep s₀ LifeEvent.removeRef)
      set s₂ := lifeRunFrom (lifeStep s₀ LifeEvent.removeRef) tra with hs₂
      have hmono : t < s₂.nextToken := by omega
      have hsplitA : lifeRunFrom (lifeStep s₀ LifeEvent.removeRef)
          (tra ++ LifeEvent.addRef :: trb)
          = lifeRunFrom (lifeStep s₂ LifeEvent.addRef) trb := by
        simp [hs₂, lifeRunFrom, List.foldl_append]
      have h3a : t < (lifeStep s₂ LifeEvent.addRef).nextToken := by
        show t < s₂.nextToken + 1
        omega
      have h3b : (lifeStep s₂ LifeEvent.addRef).lastAccessedTime ≠ t := by
        show s₂.nextToken ≠ t
        omega
      rw [hsplitA]
      exact (lifeP_run t trb (lifeStep s₂ LifeEvent.addRef) h3a h3b).2
    exact fire_stale_noop _ t hstale

/-- Witness for C3: one client attaches then detaches; with nothing else
happening the grace timer destroys the fetcher, while a re-attach before
the timer fires leaves the fetcher exactly as it was (minus the spent
timer). -/
theorem C3_witness :
    (lifeRun [LifeEvent.addRef]).refs = 1 ∧
    (lifeRun ([LifeEvent.addRef] ++ LifeEvent.removeRef ::
        (([] : List LifeEvent) ++
          [LifeEvent.fire (lifeRun [LifeEvent.addRef]).nextToken]))).destroyed = true ∧
    (lifeRun ([LifeEvent.addRef] ++ LifeEvent.removeRef ::
        (([] : List LifeEvent) ++
          [LifeEvent.fire (lifeRun [LifeEvent.addRef]).nextToken]))).sourcesStopped
      = true ∧
    lifeRun ([LifeEvent.addRef] ++ LifeEvent.removeRef ::
        ([LifeEvent.addRef] ++
          [LifeEvent.fire (lifeRun [LifeEvent.addRef]).nextToken]))
      = erasePending (lifeRun ([LifeEvent.addRef] ++
          LifeEvent.removeRef :: [LifeEvent.addRef]))
          (lifeRun [LifeEvent.addRef]).nextToken := by
  have h1 : (lifeRun [LifeEvent.addRef]).refs = 1 := by decide
  have hA := (C3_grace_period_lifecycle [LifeEvent.addRef] [] h1).1
    (by intro ev hev; simp at hev)
  have hB := (C3_grace_period_lifecycle [LifeEvent.addRef] [LifeEvent.addRef] h1).2
    [] [] rfl
  exact ⟨h1, hA.1, hA.2, hB⟩

/-! ## The bounds-message handler of `setupWebsocketServer`
(`src/websocket_server.ts`, lines 179-213)

The handler runs `JSON.parse(data.toString())` — whose failure throws,
aborting the handler before anything is registered — and then ignores
the parsed value entirely: it registers the hard-coded `allowedBounds`
and replies `{t:"Bounds", msg: allowedBounds}`.  `JSON.parse` is a
platform builtin; it is modelled by a JSON recognizer (the value is
discarded by the handler, so only acceptance matters). -/

def isJsonWs (c : Char) : Bool :=
  decide (c = ' ' ∨ c = '\t' ∨ c = '\n' ∨ c = '\r')

def skipWs (l : List Char) : List Char :=
  l.dropWhile isJsonWs

def isHexDigitChar (c : Char) : Bool :=
  decide (('0' ≤ c ∧ c ≤ '9') ∨ ('a' ≤ c ∧ c ≤ 'f') ∨ ('A' ≤ c ∧ c ≤ 'F'))

def isDigitChar (c : Char) : Bool :=
  decide ('0' ≤ c ∧ c ≤ '9')

/-- JSON string body after the opening quote: plain characters (no
control characters), the short escapes, and `\u` + four hex digits,
up to the closing quote. -/
def parseStringBody : List Char → Option (List Char)
  | [] => none
  | '"' :: rest => some rest
  | '\\' :: rest =>
    match rest with
    | [] => none
    | 'u' :: a :: b :: c :: d :: rest' =>
      if isHexDigitChar a ∧ isHexDigitChar b ∧ isHexDigitChar c ∧ isHexDigitChar d then
        parseStringBody rest'
      else none
    | c :: rest' =>
      if c = '"' ∨ c = '\\' ∨ c = '/' ∨ c = 'b' ∨ c = 'f' ∨ c = 'n' ∨ c = 'r' ∨ c = 't' then
        parseStringBody rest'
      else none
  | c :: rest =>
    if c.toNat < 32 then none else parseStringBody rest

/-- The fraction and exponent tail of a JSON number. -/
def parseFracExpTail (l : List Char) : Option (List Char) :=
  let afterFrac : Option (List Char) :=
    match l with
    | '.' :: r =>
      if r.takeWhile isDigitChar = [] then none else some (r.dropWhile isDigitChar)
    | _ => some l
  match afterFrac with
  | none => none
  | some l2 =>
    match l2 with
    | c :: r =>
      if c = 'e' ∨ c = 'E' then
        let r2 := match r with
          | '+' :: rr => rr
          | '-' :: rr => rr
          | _ => r
        if r2.takeWhile isDigitChar = [] then none
        else some (r2.dropWhile isDigitChar)
      else some l2
    | [] => some []

def parseNumberAfterSign : List Char → Option (List Char)
  | [] => none
  | '0' :: r => parseFracExpTail r
  | c :: r => if isDigitChar c then parseFracExpTail (r.dropWhile isDigitChar) else none

/-- A JSON number: optional minus, `0` or a nonzero-led digit run,
optional fraction and exponent. -/
def parseNumber (l : List Char) : Option (List Char) :=
  match l with
  | '-' :: r => parseNumberAfterSign r
  | _ => parseNumberAfterSign l

/-- The four states of the JSON recognizer: a value, an object member,
the continuation of an array, the continuation of an object. -/
inductive JMode where
  | value
  | member
  | arrayRest
  | objectRest
deriving DecidableEq, Repr

/-- The JSON grammar, fuel-indexed (the fuel bounds nesting; the top
level supplies more than the input length, so it never runs out on real
input).  Returns the unconsumed input on success. -/
def parseJson : ℕ → JMode → List Char → Option (List Char)
  | 0, _, _ => none
  | _ + 1, JMode.value, [] => none
  | fuel + 1, JMode.value, c :: r =>
    if c = 'n' then
      match r with
      | 'u' :: 'l' :: 'l' :: r' => some r'
      | _ => none
    else if c = 't' then
      match r with
      | 'r' :: 'u' :: 'e' :: r' => some r'
      | _ => none
    else if c = 'f' then
      match r with
      | 'a' :: 'l' :: 's' :: 'e' :: r' => some r'
      | _ => none
    else if c = '"' then parseStringBody r
    else if c = '[' then
      match skipWs r with
      | ']' :: r' => some r'
      | r1 =>
        match parseJson fuel JMode.value r1 with
        | some r2 => parseJson fuel JMode.arrayRest (skipWs r2)
        | none => none
    else if c = '{' then
      match skipWs r with
      | '}' :: r' => some r'
      | r1 =>
        match parseJson fuel JMode.member r1 with
        | some r2 => parseJson fuel JMode.objectRest (skipWs r2)
        | none => none
    else parseNumber (c :: r)
  | fuel + 1, JMode.member, l =>
    match l with
    | '"' :: r =>
      match parseStringBody r with
      | some r1 =>
        match skipWs r1 with
        | ':' :: r2 => parseJson fuel JMode.value (skipWs r2)
        | _ => none
      | none => none
    | _ => none
  | fuel + 1, JMode.arrayRest, l =>
    match l with
    | ']' :: r => some r
    | ',' :: r =>
      match parseJson fuel JMode.value (skipWs r) with
      | some r' => parseJson fuel JMode.arrayRest (skipWs r')
      | none => none
    | _ => none
  | fuel + 1, JMode.objectRest, l =>
    match l with
    | '}' :: r => some r
    | ',' :: r =>
      match parseJson fuel JMode.member (skipWs r) with
      | some r' => parseJson fuel JMode.objectRest (skipWs r')
      | none => none
    | _ => none

/-- The `JSON.parse` acceptance condition: a single JSON value surrounded by optional
whitespace. -/
def jsonAccepts (s : String) : Bool :=
  match parseJson (2 * s.data.length + 2) JMode.value (skipWs s.data) with
  | some rest => decide (skipWs rest = [])
  | none => false

/-- The constant `allowedBounds` from `websocket_server.ts` — the hard-coded region
used regardless of what the client sent. -/
def allowedBounds : Bounds :=
  { maxLat := 40.9, minLat := 40.6, maxLng := -73.7, minLng := -74.3 }

/-- The `ws.on("message")` handler: `JSON.parse` the payload (a throw
aborts before any registration: `none`), ignore the value, register the
fetcher under `getKeyForBounds allowedBounds` and reply with
`{t:"Bounds", msg: allowedBounds}`.  The result is the registered broker
key together with the announced bounds. -/
def handleBoundsMessage (payload : String) : Option (String × Bounds) :=
  if jsonAccepts payload then some (getKeyForBounds allowedBounds, allowedBounds)
  else none

/-- C2 counterexample: the claim quantifies over *whatever* payload the
client sends, but a payload that is not valid JSON makes `JSON.parse`
throw before `registerBounds` runs: nothing is registered and no
`{t:"Bounds"}` reply is sent, and two runs differing only in the
payload (`"not json"` vs `"{}"`) do not register identically. -/
theorem C2_counterexample :
    handleBoundsMessage "not json" = none ∧
    handleBoundsMessage "{}" = some (getKeyForBounds allowedBounds, allowedBounds) ∧
    handleBoundsMessage "not json" ≠ handleBoundsMessage "{}" := by
  have hrej : jsonAccepts "not json" = false := by decide
  have hacc : jsonAccepts "{}" = true := by decide
  refine ⟨?_, ?_, ?_⟩
  · simp [handleBoundsMessage, hrej]
  · simp [handleBoundsMessage, hacc]
  · simp [handleBoundsMessage, hacc, hrej]

/-- C2 (amended): for every payload the JSON parse step accepts, the
server registers exactly the fixed region
`{minLat:40.6, maxLat:40.9, minLng:-74.3, maxLng:-73.7}` under its
canonical key and announces exactly that box, so any two runs whose
payloads both parse as JSON register the same broker key and announce
identical bounds, whatever the payloads' content. -/
theorem C2_fixed_bounds_of_valid_json (p : String) (hp : jsonAccepts p = true) :
    handleBoundsMessage p = some (getKeyForBounds allowedBounds, allowedBounds) ∧
    allowedBounds = Bounds.mk 40.9 40.6 (-73.7) (-74.3) ∧
    (∀ q : String, jsonAccepts q = true →
      handleBoundsMessage p = handleBoundsMessage q) := by
  refine ⟨by simp [handleBoundsMessage, hp], rfl, ?_⟩
  intro q hq
  simp [handleBoundsMessage, hp, hq]

/-- Witness for C2's amended claim at two concrete JSON payloads. -/
theorem C2_witness :
    jsonAccepts "{}" = true ∧
    jsonAccepts "[1, 2]" = true ∧
    handleBoundsMessage "{}" = some (getKeyForBounds allowedBounds, allowedBounds) ∧
    handleBoundsMessage "{}" = handleBoundsMessage "[1, 2]" := by
  have h1 : jsonAccepts "{}" = true := by decide
  have h2 : jsonAccepts "[1, 2]" = true := by decide
  have h := C2_fixed_bounds_of_valid_json "{}" h1
  exact ⟨h1, h2, h.1, h.2.2 "[1, 2]" h2⟩

end WTT
